import Mathlib

/-!
Verification of the IBEDC energy-monitoring report engine.

This file gives a shallow embedding, in Lean 4, of the report matrix and
compliance analysis engine of the repository:

* the date-range expander `getDatesInRange` / `calculateDateRange`
  (report controller),
* the matrix builder `populateDateSpecificData` and the compliance
  classifier `runComplianceChecks` of `ReportGenerationService`
  (report controller),
* the per-feeder analysis/bucket logic of `addAnalysisSheetsToWorkbook`
  (`src/backend/src/utils/addAnalysisSheetsToWorkbook.ts`),
* the failed-checks summary pipeline of `populateFeederData` and
  `populateFailedChecksSummary` (report controller),
* the single-entry readings cache of `FeederDataService.getAllReadingsInRange`,
* the region/hub filter resolution of `generateSpecificDateReport`,
  `sendReportByEmail` and `generateCustomReport`,
* the column-address converters `getColumnLetter` (report controller) and
  `colToNum` (`addAnalysisSheetsToWorkbook`).

Modelling conventions: JavaScript `Date` timestamps are integers
(milliseconds since the epoch, UTC); energy quantities (JS numbers) are
rationals; spreadsheet writes and cell styling are ignored, only the
values the claims speak about are tracked.
-/

namespace IbedcEnergy

/-! ## Time model -/

/-- Milliseconds in one UTC calendar day. -/
def msPerDay : Int := 86400000

/-- Modelled from the spec: the helper `formatDate`
(`src/backend/src/utils/formatDate.ts`) is not among the provided source
files.  The spec says readings are looked up "by exact calendar-day match",
so we represent the formatted date string by the UTC calendar-day number of
the timestamp (floor division by `msPerDay`; Lean's `Int` division rounds
toward negative infinity for a positive divisor, matching UTC calendar
semantics).  Distinct calendar days get distinct keys and the numeric order
of keys agrees with the chronological order, as for an ISO `YYYY-MM-DD`
string. -/
def formatDate (t : Int) : Int := t / msPerDay

/-- `date.setUTCHours(0, 0, 0, 0)`: truncate a timestamp to UTC midnight. -/
def setUTCMidnight (t : Int) : Int := msPerDay * (t / msPerDay)

/-- The `while (currentDate <= endDate)` loop of `getDatesInRange`:
push the current day and step one UTC day forward. -/
def datesLoop (endDate : Int) (current : Int) : List Int :=
  if current ≤ endDate then current :: datesLoop endDate (current + msPerDay) else []
termination_by (endDate + 1 - current).toNat
decreasing_by simp only [msPerDay] at *; omega

/-- `getDatesInRange(startDate, endDate)` of the report controller:
normalize the start to UTC midnight, then collect one timestamp per day
while the running day is `<= endDate`. -/
def getDatesInRange (startDate endDate : Int) : List Int :=
  datesLoop endDate (setUTCMidnight startDate)

/-- `calculateDateRange(specificDate)` of the report controller (the
branch with a specific date): midnight of the day, and the same day at
23:59:59.999. -/
def calculateDateRange (specificDate : Int) : Int × Int :=
  (setUTCMidnight specificDate, setUTCMidnight specificDate + (msPerDay - 1))

theorem datesLoop_pos {e c : Int} (h : c ≤ e) :
    datesLoop e c = c :: datesLoop e (c + msPerDay) := by
  rw [datesLoop.eq_def]
  simp [h]

theorem datesLoop_neg {e c : Int} (h : e < c) : datesLoop e c = [] := by
  rw [datesLoop.eq_def]
  simp [not_le.mpr h]

theorem datesLoop_head {e c : Int} (h : c ≤ e) : (datesLoop e c).head? = some c := by
  rw [datesLoop_pos h]
  rfl

theorem datesLoop_chain (e : Int) :
    ∀ c, (datesLoop e c).Chain' (fun a b => b = a + msPerDay) := by
  intro c
  induction c using datesLoop.induct e with
  | case1 x hx ih =>
    rw [datesLoop_pos hx, List.chain'_cons']
    refine ⟨?_, ih⟩
    intro b hb
    by_cases h2 : x + msPerDay ≤ e
    · rw [datesLoop_head h2] at hb
      simp at hb
      omega
    · rw [datesLoop_neg (by omega)] at hb
      simp at hb
  | case2 x hx =>
    rw [datesLoop_neg (by omega)]
    simp

theorem datesLoop_getLast (e : Int) :
    ∀ c, msPerDay ∣ c → c ≤ e →
      (datesLoop e c).getLast? = some (msPerDay * (e / msPerDay)) := by
  intro c
  induction c using datesLoop.induct e with
  | case1 x hx ih =>
    intro hdvd _
    rw [datesLoop_pos hx]
    by_cases h2 : x + msPerDay ≤ e
    · rw [List.getLast?_cons, ih (Dvd.dvd.add hdvd (dvd_refl _)) h2]
      simp
    · rw [datesLoop_neg (show e < x + msPerDay by omega)]
      simp only [List.getLast?_singleton, Option.some.injEq]
      obtain ⟨q, hq⟩ := hdvd
      simp only [msPerDay] at *
      omega
  | case2 x hx =>
    intro _ h
    omega

theorem setUTCMidnight_dvd (t : Int) : msPerDay ∣ setUTCMidnight t :=
  Dvd.intro _ rfl

theorem setUTCMidnight_le (t : Int) : setUTCMidnight t ≤ t := by
  simp only [setUTCMidnight, msPerDay]
  omega

theorem setUTCMidnight_idem (t : Int) : setUTCMidnight (setUTCMidnight t) = setUTCMidnight t := by
  simp only [setUTCMidnight, msPerDay]
  omega

/-- Counterexample to claim C4.  The claim says the date-range expander
"fails with an InvalidRange condition whenever the end date precedes the
start date".  The code has no failure path at all: `getDatesInRange` is a
total function and, with the start one day after the end
(start = Jan 2 1970 00:00 UTC, end = Jan 1 1970 00:00 UTC), it silently
returns the empty sequence instead of signalling any error. -/
theorem getDatesInRange_no_failure_counterexample :
    (0 : Int) < 86400000 ∧ getDatesInRange 86400000 0 = [] := by
  constructor
  · norm_num
  · show datesLoop 0 (setUTCMidnight 86400000) = []
    have h : setUTCMidnight 86400000 = 86400000 := by
      simp only [setUTCMidnight, msPerDay]
      norm_num
    rw [h]
    exact datesLoop_neg (by norm_num)

/-- C4, amended.  The date-range expander never fails: when the end
precedes the UTC midnight of the start it returns the empty sequence (no
`InvalidRange` condition exists in the code); for every pair with
start ≤ end it returns a non-empty ordered sequence of calendar-day
timestamps, one per day (consecutive UTC midnights), earliest first,
whose first element is the start's midnight and whose last element is the
end's midnight (both endpoints' days inclusive); and the single-date range
produced by `calculateDateRange` expands to a one-element sequence. -/
theorem getDatesInRange_amended :
    (∀ s e : Int, e < setUTCMidnight s → getDatesInRange s e = []) ∧
    (∀ s e : Int, s ≤ e →
      getDatesInRange s e ≠ [] ∧
      (getDatesInRange s e).head? = some (setUTCMidnight s) ∧
      (getDatesInRange s e).getLast? = some (setUTCMidnight e) ∧
      (getDatesInRange s e).Chain' (fun a b => b = a + msPerDay)) ∧
    (∀ t : Int,
      getDatesInRange (calculateDateRange t).1 (calculateDateRange t).2 =
        [setUTCMidnight t]) := by
  refine ⟨?_, ?_, ?_⟩
  · intro s e h
    exact datesLoop_neg h
  · intro s e h
    have hle : setUTCMidnight s ≤ e := le_trans (setUTCMidnight_le s) h
    refine ⟨?_, datesLoop_head hle, ?_, datesLoop_chain e _⟩
    · simp only [getDatesInRange]
      rw [datesLoop_pos hle]
      simp
    · exact datesLoop_getLast e _ (setUTCMidnight_dvd s) hle
  · intro t
    show datesLoop (setUTCMidnight t + (msPerDay - 1)) (setUTCMidnight (setUTCMidnight t)) = _
    rw [setUTCMidnight_idem]
    rw [datesLoop_pos (by simp only [msPerDay]; omega)]
    rw [datesLoop_neg (by simp only [msPerDay]; omega)]

/-- Witness for `getDatesInRange_amended` at a concrete two-day range
(Jan 1 1970 06:00 UTC to Jan 2 1970 00:00 UTC). -/
theorem getDatesInRange_amended_instance :
    (21600000 : Int) ≤ 86400000 ∧
      (getDatesInRange 21600000 86400000).head? = some (setUTCMidnight 21600000) ∧
      (getDatesInRange 21600000 86400000).getLast? = some (setUTCMidnight 86400000) := by
  have h := (getDatesInRange_amended.2.1 21600000 86400000 (by norm_num))
  exact ⟨by norm_num, h.2.1, h.2.2.1⟩

/-! ## Column-address conversion -/

/-- `getColumnLetter(colIndex)` of the report controller: bijective
base-26 encoding of a 1-based column index into capital letters, built by
the `while (current > 0)` loop.  The JS string is modelled as its list of
characters. -/
def getColumnLetter (colIndex : Nat) : List Char :=
  if colIndex = 0 then []
  else
    getColumnLetter ((colIndex - (colIndex - 1) % 26 - 1) / 26) ++
      [Char.ofNat ((colIndex - 1) % 26 + 65)]
termination_by colIndex
decreasing_by
  have h := Nat.div_le_self (colIndex - (colIndex - 1) % 26 - 1) 26
  omega

/-- `colToNum(col)` of `addAnalysisSheetsToWorkbook`: fold the letters
left to right, `num = num * 26 + (charCode - 64)`. -/
def colToNum (letters : List Char) : Nat :=
  letters.foldl (fun num c => num * 26 + (c.toNat - 64)) 0

theorem colToNum_concat (l : List Char) (c : Char) :
    colToNum (l ++ [c]) = colToNum l * 26 + (c.toNat - 64) := by
  simp [colToNum, List.foldl_append]

theorem char_code_roundtrip : ∀ t : Nat, t < 26 → (Char.ofNat (t + 65)).toNat = t + 65 := by
  intro t ht
  interval_cases t <;> decide

theorem colToNum_getColumnLetter_aux : ∀ n : Nat, colToNum (getColumnLetter n) = n := by
  intro n
  induction n using getColumnLetter.induct with
  | case1 =>
    rw [getColumnLetter.eq_def]
    simp [colToNum]
  | case2 n hn ih =>
    rw [getColumnLetter.eq_def, if_neg hn, colToNum_concat, ih,
      char_code_roundtrip _ (Nat.mod_lt _ (by norm_num))]
    omega

/-- C10: the two independently implemented spreadsheet column-address
conversions are mutually inverse: for every column index n ≥ 1,
`colToNum (getColumnLetter n) = n`. -/
theorem colToNum_getColumnLetter (n : Nat) (_h : 1 ≤ n) :
    colToNum (getColumnLetter n) = n :=
  colToNum_getColumnLetter_aux n

/-- Witness for `colToNum_getColumnLetter` at n = 703 (column "AAA"). -/
theorem colToNum_getColumnLetter_instance :
    1 ≤ 703 ∧ colToNum (getColumnLetter 703) = 703 :=
  ⟨by norm_num, colToNum_getColumnLetter 703 (by norm_num)⟩

/-! ## Matrix builder -/

/-- A per-feeder lookup of readings by formatted calendar day: the
`readingMap` of `populateFeederData` (a JS `Map` keyed by
`formatDate(reading.date)`), returning the stored reading's
`cumulativeEnergyConsumption`. -/
abbrev ReadingMap := Int → Option ℚ

/-- One (feeder, day) cell triple of the report matrix. -/
structure MatrixRow where
  nomination : ℚ
  actual : ℚ
  variance : ℚ
deriving DecidableEq

def defaultRow : MatrixRow := ⟨0, 0, 0⟩

/-- `ReportGenerationService.populateDateSpecificData`: walk the expanded
date range with a 0-based index `i` and the running `currentPrevActual`;
for each day, `nomination = dailyEnergyUptake * (i + 1)`, `actual` is the
day's reading if present and otherwise the carried-forward previous
actual, `variance = actual - nomination`.  Cell writes and styling are
dropped; the computed triples are collected in range order. -/
def populateDateSpecificData (dailyEnergyUptake : ℚ) (readingMap : ReadingMap) :
    List Int → Nat → ℚ → List MatrixRow
  | [], _, _ => []
  | d :: rest, i, currentPrevActual =>
    let nomination := dailyEnergyUptake * ((i : ℚ) + 1)
    let actual := (readingMap (formatDate d)).getD currentPrevActual
    let variance := actual - nomination
    ⟨nomination, actual, variance⟩ ::
      populateDateSpecificData dailyEnergyUptake readingMap rest (i + 1) actual

/-- The resolved actual after folding the carry-forward rule over a
prefix of the date range (proof-side reformulation of the same
recursion). -/
def resolvedActual (readingMap : ReadingMap) (p : ℚ) : List Int → ℚ
  | [] => p
  | d :: rest => resolvedActual readingMap ((readingMap (formatDate d)).getD p) rest

theorem resolvedActual_append (readingMap : ReadingMap) (p : ℚ) (l : List Int) (d : Int) :
    resolvedActual readingMap p (l ++ [d]) =
      (readingMap (formatDate d)).getD (resolvedActual readingMap p l) := by
  induction l generalizing p with
  | nil => rfl
  | cons x xs ih => simp [resolvedActual, ih]

theorem resolvedActual_of_none (readingMap : ReadingMap) (p : ℚ) (l : List Int)
    (h : ∀ d ∈ l, readingMap (formatDate d) = none) :
    resolvedActual readingMap p l = p := by
  induction l generalizing p with
  | nil => rfl
  | cons x xs ih =>
    simp only [resolvedActual, h x (by simp), Option.getD_none]
    exact ih p (fun d hd => h d (by simp [hd]))

theorem populateDateSpecificData_length (u : ℚ) (rm : ReadingMap) :
    ∀ (ds : List Int) (i : Nat) (p : ℚ),
      (populateDateSpecificData u rm ds i p).length = ds.length := by
  intro ds
  induction ds with
  | nil => intro i p; rfl
  | cons d rest ih => intro i p; simp [populateDateSpecificData, ih]

theorem populateDateSpecificData_getD (u : ℚ) (rm : ReadingMap) :
    ∀ (ds : List Int) (i : Nat) (p : ℚ) (j : Nat), j < ds.length →
      (populateDateSpecificData u rm ds i p).getD j defaultRow =
        ⟨u * (((i + j : Nat) : ℚ) + 1),
         resolvedActual rm p (ds.take (j + 1)),
         resolvedActual rm p (ds.take (j + 1)) - u * (((i + j : Nat) : ℚ) + 1)⟩ := by
  intro ds
  induction ds with
  | nil =>
    intro i p j hj
    simp at hj
  | cons d rest ih =>
    intro i p j hj
    match j with
    | 0 =>
      simp [populateDateSpecificData, List.take, resolvedActual]
    | Nat.succ j' =>
      have hj' : j' < rest.length := by simpa using hj
      simp only [populateDateSpecificData, List.getD_cons_succ, List.take, resolvedActual]
      rw [ih (i + 1) _ j' hj']
      have harith : ((i + 1 + j' : Nat) : ℚ) = ((i + (j' + 1) : Nat) : ℚ) := by
        push_cast
        ring
      rw [harith]

/-- C1: for every feeder and every day at 1-indexed position i of the
expanded date range, the matrix builder computes
`nomination = dailyEnergyUptake * i`; `actual` is the reading value of
that exact day if present, otherwise the previous day's resolved actual
(0 on the first day); `variance = actual - nomination`; and a feeder with
no reading at all in range has actual 0 on every day. -/
theorem populateDateSpecificData_spec (u : ℚ) (rm : ReadingMap) (dates : List Int) :
    (populateDateSpecificData u rm dates 0 0).length = dates.length ∧
    (∀ j : Nat, j < dates.length →
      (populateDateSpecificData u rm dates 0 0).getD j defaultRow =
        ⟨u * ((j : ℚ) + 1),
         (rm (formatDate (dates.getD j 0))).getD
           (if j = 0 then 0 else
             ((populateDateSpecificData u rm dates 0 0).getD (j - 1) defaultRow).actual),
         (rm (formatDate (dates.getD j 0))).getD
           (if j = 0 then 0 else
             ((populateDateSpecificData u rm dates 0 0).getD (j - 1) defaultRow).actual) -
           u * ((j : ℚ) + 1)⟩) ∧
    ((∀ d ∈ dates, rm (formatDate d) = none) →
      ∀ j : Nat, ((populateDateSpecificData u rm dates 0 0).getD j defaultRow).actual = 0) := by
  refine ⟨populateDateSpecificData_length u rm dates 0 0, ?_, ?_⟩
  · intro j hj
    have htake : dates.take (j + 1) = dates.take j ++ [dates.getD j 0] := by
      rw [List.take_succ]
      congr 1
      have : dates[j]? = some (dates.getD j 0) := by
        rw [List.getD_eq_getElem?_getD, List.getElem?_eq_getElem hj]
        simp [List.getElem?_eq_getElem hj]
      rw [this]
      rfl
    rw [populateDateSpecificData_getD u rm dates 0 0 j hj, htake, resolvedActual_append]
    match j with
    | 0 =>
      simp [resolvedActual]
    | Nat.succ j' =>
      have hj' : j' < dates.length := by omega
      simp only [Nat.succ_ne_zero, if_false, Nat.succ_sub_one, ite_false]
      rw [populateDateSpecificData_getD u rm dates 0 0 j' hj']
      simp only [MatrixRow.mk.injEq, Nat.succ_eq_add_one]
      push_cast
      constructor
      · ring
      constructor
      · trivial
      · ring
  · intro hnone j
    by_cases hj : j < dates.length
    · rw [populateDateSpecificData_getD u rm dates 0 0 j hj]
      exact resolvedActual_of_none rm 0 _
        (fun d hd => hnone d (List.mem_of_mem_take hd))
    · rw [List.getD_eq_default]
      · rfl
      · rw [populateDateSpecificData_length]
        omega

/-- Witness for `populateDateSpecificData_spec`: uptake 100 over the
two days Jan 1 and Jan 2 1970, with a single reading of 100 on Jan 1;
day 2 (index 1) carries day 1's actual forward. -/
theorem populateDateSpecificData_spec_instance :
    (1 : Nat) < ([0, 86400000] : List Int).length ∧
      (populateDateSpecificData 100
          (fun k => if k = 0 then some 100 else none) [0, 86400000] 0 0).getD 1 defaultRow =
        ⟨200, 100, -100⟩ := by
  refine ⟨by norm_num, ?_⟩
  have h := (populateDateSpecificData_spec 100
    (fun k => if k = 0 then some 100 else none) [0, 86400000]).2.1 1 (by norm_num)
  rw [h]
  norm_num [populateDateSpecificData, formatDate, msPerDay]

/-! ## Compliance classifier -/

/-- Fixed rule label: decline violation. -/
def labelDecline : String := "Actual D-0 < Actual D-1"

/-- Fixed rule label: actual below 70% of nomination. -/
def labelNomLow : String := "< 70% Nom"

/-- Fixed rule label: actual above 130% of nomination. -/
def labelNomHigh : String := "> 130% Nom"

/-- Fixed rule label: daily delta below 70% of the daily uptake. -/
def labelDailyLow : String := "< 70% Daily Uptake"

/-- Fixed rule label: daily delta above 130% of the daily uptake. -/
def labelDailyHigh : String := "> 130% Daily Uptake"

/-- Analysis sheet name for a non-negative last-day variance. -/
def labelPositiveVariance : String := "Positive Variance"

/-- Analysis sheet name for a feeder with no failed checks. -/
def labelNoFlags : String := "No Flags"

/-- The shared rule block (lines 510-530 of `runComplianceChecks` in the
report controller, identical to lines 162-181 of
`addAnalysisSheetsToWorkbook`): push the decline label when
`dayIndex > 1 && actual <= previousDayActual`; push exactly one of the
nomination labels by the `if / else if` on 0.7/1.3 of the nomination; when
`dayIndex > 1`, push exactly one of the daily-uptake labels by the
`if / else if` on 0.7/1.3 of the daily uptake applied to
`dailyActual = actual - previousDayActual`. -/
def checksFrom (dailyUptake : ℚ) (dayIndex : Nat)
    (nomination actual previousDayActual : ℚ) : List String :=
  let checks1 : List String :=
    if 1 < dayIndex ∧ actual ≤ previousDayActual then [labelDecline] else []
  let checks2 : List String :=
    if actual < (7 / 10) * nomination then checks1 ++ [labelNomLow]
    else if (13 / 10) * nomination < actual then checks1 ++ [labelNomHigh]
    else checks1
  if 1 < dayIndex then
    if actual - previousDayActual < (7 / 10) * dailyUptake then checks2 ++ [labelDailyLow]
    else if (13 / 10) * dailyUptake < actual - previousDayActual then checks2 ++ [labelDailyHigh]
    else checks2
  else checks2

/-- `ReportGenerationService.runComplianceChecks`: look up the reading of
the last date of the expanded range; if it is missing or its cumulative
consumption is ≤ 0, return no checks; otherwise evaluate the rule block
with `dayIndex = dates.length`, `nomination = dailyEnergyUptake * dayIndex`
and, when `dayIndex > 1`, `previousDayActual` equal to the previous
calendar day's reading value if present and 0 otherwise. -/
def runComplianceChecks (dailyEnergyUptake : ℚ) (readingMap : ReadingMap)
    (dates : List Int) (prevActual : ℚ) : List String :=
  let lastDate := (dates.getLast?).getD 0
  match readingMap (formatDate lastDate) with
  | none => []
  | some actual =>
    if actual ≤ 0 then []
    else
      let dayIndex := dates.length
      let nomination := dailyEnergyUptake * (dayIndex : ℚ)
      let previousDayActual :=
        if 1 < dayIndex then (readingMap (formatDate (lastDate - msPerDay))).getD 0
        else prevActual
      checksFrom dailyEnergyUptake dayIndex nomination actual previousDayActual

/-- Follows claim C2's wording (refinement reference, not the code): the
same classifier but with `previousDayActual` taken to be the previous
day's resolved actual as computed by the matrix builder's carry-forward,
i.e. the resolved actual over all but the last day of the range. -/
def runComplianceChecksSpecPrev (dailyEnergyUptake : ℚ) (readingMap : ReadingMap)
    (dates : List Int) (prevActual : ℚ) : List String :=
  let lastDate := (dates.getLast?).getD 0
  match readingMap (formatDate lastDate) with
  | none => []
  | some actual =>
    if actual ≤ 0 then []
    else
      let dayIndex := dates.length
      let nomination := dailyEnergyUptake * (dayIndex : ℚ)
      let previousDayActual :=
        if 1 < dayIndex then resolvedActual readingMap 0 dates.dropLast
        else prevActual
      checksFrom dailyEnergyUptake dayIndex nomination actual previousDayActual

/-- The consecutive UTC midnights starting at `m`, as produced by the
date-range expander for an `n`-day range. -/
def consecutiveDays (m : Int) (n : Nat) : List Int :=
  (List.range n).map (fun (k : Nat) => m + msPerDay * (k : Int))

theorem consecutiveDays_length (m : Int) (n : Nat) : (consecutiveDays m n).length = n := by
  rw [consecutiveDays, List.length_map, List.length_range]

theorem consecutiveDays_succ (m : Int) (n : Nat) :
    consecutiveDays m (n + 1) = consecutiveDays m n ++ [m + msPerDay * (n : Int)] := by
  simp [consecutiveDays, List.range_succ]

theorem consecutiveDays_getLast (m : Int) (n : Nat) :
    (consecutiveDays m (n + 1)).getLast? = some (m + msPerDay * (n : Int)) := by
  rw [consecutiveDays_succ]
  exact List.getLast?_concat _

theorem consecutiveDays_dropLast (m : Int) (n : Nat) :
    (consecutiveDays m (n + 1)).dropLast = consecutiveDays m n := by
  rw [consecutiveDays_succ]
  exact List.dropLast_concat

/-! Membership characterizations of the rule block. -/

theorem label_distinct :
    labelDecline ≠ labelNomLow ∧ labelDecline ≠ labelNomHigh ∧
    labelDecline ≠ labelDailyLow ∧ labelDecline ≠ labelDailyHigh ∧
    labelNomLow ≠ labelNomHigh ∧ labelNomLow ≠ labelDailyLow ∧
    labelNomLow ≠ labelDailyHigh ∧ labelNomHigh ≠ labelDailyLow ∧
    labelNomHigh ≠ labelDailyHigh ∧ labelDailyLow ≠ labelDailyHigh := by
  refine ⟨?_, ?_, ?_, ?_, ?_, ?_, ?_, ?_, ?_, ?_⟩ <;> decide

theorem checksFrom_mem_nomLow (u : ℚ) (di : Nat) (nom a p : ℚ) :
    labelNomLow ∈ checksFrom u di nom a p ↔ a < (7 / 10) * nom := by
  unfold checksFrom
  have h := label_distinct
  split_ifs <;> simp_all [labelDecline, labelNomLow, labelNomHigh, labelDailyLow, labelDailyHigh]

theorem checksFrom_mem_nomHigh (u : ℚ) (di : Nat) (nom a p : ℚ) :
    labelNomHigh ∈ checksFrom u di nom a p ↔
      ¬ a < (7 / 10) * nom ∧ (13 / 10) * nom < a := by
  unfold checksFrom
  have h := label_distinct
  split_ifs <;> simp_all [labelDecline, labelNomLow, labelNomHigh, labelDailyLow, labelDailyHigh]

theorem checksFrom_mem_dailyLow (u : ℚ) (di : Nat) (nom a p : ℚ) :
    labelDailyLow ∈ checksFrom u di nom a p ↔ 1 < di ∧ a - p < (7 / 10) * u := by
  unfold checksFrom
  have h := label_distinct
  split_ifs <;> simp_all [labelDecline, labelNomLow, labelNomHigh, labelDailyLow, labelDailyHigh]

theorem checksFrom_mem_dailyHigh (u : ℚ) (di : Nat) (nom a p : ℚ) :
    labelDailyHigh ∈ checksFrom u di nom a p ↔
      1 < di ∧ ¬ a - p < (7 / 10) * u ∧ (13 / 10) * u < a - p := by
  unfold checksFrom
  have h := label_distinct
  split_ifs <;> simp_all [labelDecline, labelNomLow, labelNomHigh, labelDailyLow, labelDailyHigh]

theorem checksFrom_mem_decline (u : ℚ) (di : Nat) (nom a p : ℚ) :
    labelDecline ∈ checksFrom u di nom a p ↔ 1 < di ∧ a ≤ p := by
  unfold checksFrom
  have h := label_distinct
  split_ifs <;> simp_all [labelDecline, labelNomLow, labelNomHigh, labelDailyLow, labelDailyHigh]

theorem checksFrom_nodup (u : ℚ) (di : Nat) (nom a p : ℚ) :
    (checksFrom u di nom a p).Nodup := by
  unfold checksFrom
  split_ifs <;> decide

theorem checksFrom_subset (u : ℚ) (di : Nat) (nom a p : ℚ) :
    ∀ x ∈ checksFrom u di nom a p,
      x = labelDecline ∨ x = labelNomLow ∨ x = labelNomHigh ∨
      x = labelDailyLow ∨ x = labelDailyHigh := by
  unfold checksFrom
  split_ifs <;> intro x hx <;> simp_all <;> tauto

/-! ## Analysis-sheet classifier (`addAnalysisSheetsToWorkbook`) -/

/-- A stored meter reading, as used by the analysis-sheet utility: the
raw reading date and the cumulative consumption.  The recording actor and
the audit history are irrelevant to the claims and omitted. -/
structure ReadingRec where
  date : Int
  cumulativeEnergyConsumption : ℚ
deriving DecidableEq

/-- The per-feeder `readingMap` of `addAnalysisSheetsToWorkbook`: a JS
`Map` built by inserting each reading under `formatDate(reading.date)` in
list order, so a later reading with the same day key wins. -/
def buildReadingRecMap (readings : List ReadingRec) : Int → Option ReadingRec :=
  fun k => (readings.filter (fun r => formatDate r.date = k)).getLast?

/-- `readings.map(r => formatDate(r.date)).sort().slice(-1)[0]`: the last
element of the sorted list of day keys (the JS sort is modelled by an
order-preserving sort on the day keys, see `formatDate`). -/
def analysisLastDateKey (readings : List ReadingRec) : Option Int :=
  (List.insertionSort (fun a b => a ≤ b)
    (readings.map (fun r => formatDate r.date))).getLast?

/-- The reading value at the selected last day key, if any. -/
def analysisLastValue (readings : List ReadingRec) : Option ℚ :=
  (analysisLastDateKey readings).bind
    (fun k => (buildReadingRecMap readings k).map (fun r => r.cumulativeEnergyConsumption))

/-- What the analysis-sheet utility produces for one feeder: the failed
check labels, the list of analysis sheets the feeder's row is copied to
(in copy order), and the failed-check list pushed to the summary, if
any. -/
structure AnalysisResult where
  failedChecks : List String
  buckets : List String
  summaryEntry : Option (List String)
deriving DecidableEq

/-- Per-feeder compliance block of `addAnalysisSheetsToWorkbook`
(lines 139-198): select the feeder's latest reading day (by sorted
formatted date), read `previousDayActual` from the calendar day before
that reading's date (0 when absent), set
`dayIndex = (index of the selected day in the range) + 1` (0 when the day
is not in the range, as JS `findIndex` returns -1), evaluate the rule
block only when `actual > 0`, copy the row to one sheet per failed check,
to `Positive Variance` when `variance >= 0`, and to `No Flags` when no
check failed, pushing a summary entry otherwise. -/
def analysisFeederResult (dailyEnergyUptake : ℚ) (readings : List ReadingRec)
    (dates : List Int) : AnalysisResult :=
  match analysisLastDateKey readings with
  | none => ⟨[], [], none⟩
  | some lastKey =>
    match buildReadingRecMap readings lastKey with
    | none => ⟨[], [], none⟩
    | some lastReading =>
      let previousDayActual :=
        ((buildReadingRecMap readings (formatDate (lastReading.date - msPerDay))).map
          (fun r => r.cumulativeEnergyConsumption)).getD 0
      let dayIndex : Nat :=
        ((dates.findIdx? (fun d => formatDate d = lastKey)).map (fun j => j + 1)).getD 0
      let nomination := dailyEnergyUptake * (dayIndex : ℚ)
      let actual := lastReading.cumulativeEnergyConsumption
      let variance := actual - nomination
      if 0 < actual then
        let failedChecks := checksFrom dailyEnergyUptake dayIndex nomination actual previousDayActual
        ⟨failedChecks,
         failedChecks ++ (if 0 ≤ variance then [labelPositiveVariance] else []) ++
           (if failedChecks.isEmpty then [labelNoFlags] else []),
         if failedChecks.isEmpty then none else some failedChecks⟩
      else ⟨[], [], none⟩

theorem checksFrom_props (u : ℚ) (di : Nat) (nom a p : ℚ) :
    ¬(labelNomLow ∈ checksFrom u di nom a p ∧ labelNomHigh ∈ checksFrom u di nom a p) ∧
    ¬(labelDailyLow ∈ checksFrom u di nom a p ∧ labelDailyHigh ∈ checksFrom u di nom a p) ∧
    (checksFrom u di nom a p).Nodup := by
  refine ⟨?_, ?_, checksFrom_nodup u di nom a p⟩
  · rintro ⟨h1, h2⟩
    rw [checksFrom_mem_nomLow] at h1
    rw [checksFrom_mem_nomHigh] at h2
    exact h2.1 h1
  · rintro ⟨h1, h2⟩
    rw [checksFrom_mem_dailyLow] at h1
    rw [checksFrom_mem_dailyHigh] at h2
    exact h2.2.1 h1.2

theorem runComplianceChecks_cases (u : ℚ) (rm : ReadingMap) (dates : List Int) (pa : ℚ) :
    runComplianceChecks u rm dates pa = [] ∨
    ∃ di nom a p, runComplianceChecks u rm dates pa = checksFrom u di nom a p := by
  simp only [runComplianceChecks]
  split
  · exact Or.inl rfl
  · split
    · exact Or.inl rfl
    · exact Or.inr ⟨_, _, _, _, rfl⟩

theorem analysisFeederResult_cases (u : ℚ) (rs : List ReadingRec) (dates : List Int) :
    (analysisFeederResult u rs dates).failedChecks = [] ∨
    ∃ di nom a p, (analysisFeederResult u rs dates).failedChecks = checksFrom u di nom a p := by
  simp only [analysisFeederResult]
  split
  · exact Or.inl rfl
  · split
    · exact Or.inl rfl
    · split
      · exact Or.inr ⟨_, _, _, _, rfl⟩
      · exact Or.inl rfl

/-- C7: for every feeder on every run of either classifier, the output
never contains both the low and high nomination labels, never contains
both the low and high daily-uptake labels, and no rule label appears
twice. -/
theorem checks_mutually_exclusive :
    ∀ (u prevA : ℚ) (rm : ReadingMap) (dates : List Int)
      (u2 : ℚ) (rs : List ReadingRec) (dates2 : List Int),
      (¬(labelNomLow ∈ runComplianceChecks u rm dates prevA ∧
          labelNomHigh ∈ runComplianceChecks u rm dates prevA) ∧
        ¬(labelDailyLow ∈ runComplianceChecks u rm dates prevA ∧
          labelDailyHigh ∈ runComplianceChecks u rm dates prevA) ∧
        (runComplianceChecks u rm dates prevA).Nodup) ∧
      (¬(labelNomLow ∈ (analysisFeederResult u2 rs dates2).failedChecks ∧
          labelNomHigh ∈ (analysisFeederResult u2 rs dates2).failedChecks) ∧
        ¬(labelDailyLow ∈ (analysisFeederResult u2 rs dates2).failedChecks ∧
          labelDailyHigh ∈ (analysisFeederResult u2 rs dates2).failedChecks) ∧
        (analysisFeederResult u2 rs dates2).failedChecks.Nodup) := by
  intro u prevA rm dates u2 rs dates2
  constructor
  · rcases runComplianceChecks_cases u rm dates prevA with h | ⟨di, nom, a, p, h⟩
    · rw [h]
      refine ⟨by simp, by simp, List.nodup_nil⟩
    · rw [h]
      exact checksFrom_props u di nom a p
  · rcases analysisFeederResult_cases u2 rs dates2 with h | ⟨di, nom, a, p, h⟩
    · rw [h]
      refine ⟨by simp, by simp, List.nodup_nil⟩
    · rw [h]
      exact checksFrom_props u2 di nom a p

/-- Witness for `checks_mutually_exclusive` at a concrete instantiation. -/
theorem checks_mutually_exclusive_instance :
    ¬(labelNomLow ∈ runComplianceChecks 100 (fun _ => none) [0] 0 ∧
      labelNomHigh ∈ runComplianceChecks 100 (fun _ => none) [0] 0) :=
  ((checks_mutually_exclusive 100 0 (fun _ => none) [0] 100 [] [0]).1).1

/-! ## Claim C2: the classifier's previous-day actual -/

/-- A 3-day reading map with readings on days 0 and 2 and a gap on
day 1 (keys are calendar-day numbers, see `formatDate`). -/
def c2ReadingMap : ReadingMap :=
  fun k => if k = 0 then some 100 else if k = 2 then some 150 else none

/-- Counterexample to claim C2.  With uptake 100 over the three days
Jan 1-3 1970, a reading of 100 on day 1 and 150 on day 3 and none on
day 2, the matrix builder's resolved actual for day 2 is the carried
forward 100, but `runComplianceChecks` reads the previous day's value as
0 (no reading), so it reports the daily delta 150 as `> 130% Daily
Uptake`, while the claim's carry-forward semantics (embodied by
`runComplianceChecksSpecPrev`) would report the delta 50 as
`< 70% Daily Uptake`: the outputs differ. -/
theorem runComplianceChecks_prevActual_counterexample :
    runComplianceChecks 100 c2ReadingMap (consecutiveDays 0 3) 0 =
      [labelNomLow, labelDailyHigh] ∧
    runComplianceChecksSpecPrev 100 c2ReadingMap (consecutiveDays 0 3) 0 =
      [labelNomLow, labelDailyLow] ∧
    runComplianceChecks 100 c2ReadingMap (consecutiveDays 0 3) 0 ≠
      runComplianceChecksSpecPrev 100 c2ReadingMap (consecutiveDays 0 3) 0 := by
  have h1 : runComplianceChecks 100 c2ReadingMap (consecutiveDays 0 3) 0 =
      [labelNomLow, labelDailyHigh] := by
    norm_num [runComplianceChecks, consecutiveDays, c2ReadingMap, checksFrom,
      formatDate, msPerDay, List.range, List.range.loop]
  have h2 : runComplianceChecksSpecPrev 100 c2ReadingMap (consecutiveDays 0 3) 0 =
      [labelNomLow, labelDailyLow] := by
    norm_num [runComplianceChecksSpecPrev, consecutiveDays, c2ReadingMap, checksFrom,
      resolvedActual, formatDate, msPerDay, List.range, List.range.loop]
  refine ⟨h1, h2, ?_⟩
  rw [h1, h2]
  simp [labelDailyHigh, labelDailyLow]

/-- C2, amended.  Over a range of length > 1, the `previousActual` used
by the classifier equals the previous calendar day's reading value when
that day has a reading — in which case it coincides with the matrix
builder's resolved actual for that day, and the classifier agrees with
the carry-forward reading of the claim — and is 0 (not the carried
forward actual) when the previous day has no reading. -/
theorem runComplianceChecks_prevActual_amended :
    ∀ (u : ℚ) (rm : ReadingMap) (m : Int) (n : Nat) (v : ℚ),
      2 ≤ n →
      rm (formatDate (m + msPerDay * ((n : Int) - 2))) = some v →
      runComplianceChecks u rm (consecutiveDays m n) 0 =
        runComplianceChecksSpecPrev u rm (consecutiveDays m n) 0 := by
  intro u rm m n v hn hv
  obtain ⟨n2, rfl⟩ : ∃ n2, n = n2 + 2 := ⟨n - 2, by omega⟩
  have hlast : (consecutiveDays m (n2 + 2)).getLast? =
      some (m + msPerDay * ((n2 + 1 : Nat) : Int)) := consecutiveDays_getLast m (n2 + 1)
  have hlen : (consecutiveDays m (n2 + 2)).length = n2 + 2 := consecutiveDays_length _ _
  have hprevkey : m + msPerDay * ((n2 + 1 : Nat) : Int) - msPerDay =
      m + msPerDay * (((n2 + 2 : Nat) : Int) - 2) := by
    push_cast
    ring
  have hspecprev : resolvedActual rm 0 (consecutiveDays m (n2 + 2)).dropLast = v := by
    rw [consecutiveDays_dropLast, consecutiveDays_succ, resolvedActual_append]
    have hkey : m + msPerDay * ((n2 : Nat) : Int) =
        m + msPerDay * (((n2 + 2 : Nat) : Int) - 2) := by
      push_cast
      ring
    rw [hkey, hv]
    rfl
  simp only [runComplianceChecks, runComplianceChecksSpecPrev, hlast, hlen,
    Option.getD_some]
  cases hread : rm (formatDate (m + msPerDay * ((n2 + 1 : Nat) : Int))) with
  | none => rfl
  | some a =>
    by_cases ha : a ≤ 0
    · simp [ha]
    · simp only [ha, if_false, ite_false, if_pos (show 1 < n2 + 2 by omega)]
      rw [hspecprev, hprevkey, hv]
      rfl

/-- Witness for `runComplianceChecks_prevActual_amended`: readings on
days 2 and 3 of a 3-day range (the previous day has a reading). -/
def c2WitnessMap : ReadingMap :=
  fun k => if k = 1 then some 100 else if k = 2 then some 150 else none

theorem runComplianceChecks_prevActual_amended_instance :
    (2 : Nat) ≤ 3 ∧
      runComplianceChecks 100 c2WitnessMap (consecutiveDays 0 3) 0 =
        runComplianceChecksSpecPrev 100 c2WitnessMap (consecutiveDays 0 3) 0 := by
  refine ⟨by norm_num, ?_⟩
  refine runComplianceChecks_prevActual_amended 100 c2WitnessMap 0 3 100 (by norm_num) ?_
  norm_num [c2WitnessMap, formatDate, msPerDay]

/-! ## Claim C3: which day the classifiers test -/

theorem list_getLast?_mem {α : Type} (l : List α) (a : α) (h : l.getLast? = some a) :
    a ∈ l := by
  have hmem : a ∈ l.getLast? := by rw [h]; rfl
  obtain ⟨h1, h2⟩ := List.mem_getLast?_eq_getLast hmem
  subst h2
  exact List.getLast_mem h1

theorem sorted_le_getLast :
    ∀ (l : List Int), l.Sorted (· ≤ ·) → ∀ x ∈ l, ∀ m, l.getLast? = some m → x ≤ m := by
  intro l
  induction l with
  | nil => intro _ x hx; simp at hx
  | cons a rest ih =>
    intro hs x hx m hm
    cases rest with
    | nil =>
      simp at hx hm
      omega
    | cons b rest2 =>
      rw [List.getLast?_cons_cons] at hm
      rcases List.mem_cons.mp hx with rfl | hx2
      · have hm_mem : m ∈ b :: rest2 := list_getLast?_mem _ _ hm
        exact (List.sorted_cons.mp hs).1 m hm_mem
      · exact ih (List.sorted_cons.mp hs).2 x hx2 m hm

/-- C3, amended.  The controller's classifier `runComplianceChecks` does
evaluate the last element of the expanded date range: its output depends
on the reading map only through the last range day and the day before it,
and (for a positive last-day reading) flags `< 70% Nom` exactly against
the nomination `dailyEnergyUptake * dates.length`.  The analysis-sheet
utility, however, classifies the feeder's latest *reading* day: the day
key it selects is the maximum of the feeder's reading days, not the last
element of the range. -/
theorem classifier_lastday_amended :
    (∀ (u prevA : ℚ) (rm rm2 : ReadingMap) (dates : List Int),
      rm (formatDate ((dates.getLast?).getD 0)) =
        rm2 (formatDate ((dates.getLast?).getD 0)) →
      rm (formatDate ((dates.getLast?).getD 0 - msPerDay)) =
        rm2 (formatDate ((dates.getLast?).getD 0 - msPerDay)) →
      runComplianceChecks u rm dates prevA = runComplianceChecks u rm2 dates prevA) ∧
    (∀ (u prevA : ℚ) (rm : ReadingMap) (dates : List Int) (a : ℚ),
      rm (formatDate ((dates.getLast?).getD 0)) = some a → 0 < a →
      (labelNomLow ∈ runComplianceChecks u rm dates prevA ↔
        a < (7 / 10) * (u * (dates.length : ℚ)))) ∧
    (∀ (readings : List ReadingRec) (k : Int),
      analysisLastDateKey readings = some k →
        k ∈ readings.map (fun r => formatDate r.date) ∧
        ∀ x ∈ readings.map (fun r => formatDate r.date), x ≤ k) := by
  refine ⟨?_, ?_, ?_⟩
  · intro u prevA rm rm2 dates h1 h2
    simp only [runComplianceChecks, h1, h2]
  · intro u prevA rm dates a hread ha
    simp only [runComplianceChecks, hread]
    rw [if_neg (not_le.mpr ha)]
    exact checksFrom_mem_nomLow u dates.length (u * (dates.length : ℚ)) a _
  · intro readings k hk
    have hperm := List.perm_insertionSort (fun a b => a ≤ b)
      (readings.map (fun r => formatDate r.date))
    have hsorted := List.sorted_insertionSort (fun a b => a ≤ b)
      (readings.map (fun r => formatDate r.date))
    constructor
    · exact hperm.mem_iff.mp (list_getLast?_mem _ _ hk)
    · intro x hx
      exact sorted_le_getLast _ hsorted x (hperm.mem_iff.mpr hx) k hk

/-- Witness for `classifier_lastday_amended` (the dependence part) at a
concrete range and two maps agreeing on the last two days. -/
theorem classifier_lastday_amended_instance :
    runComplianceChecks 100 (fun k => if k = 9 then some 5 else none) [777600000] 0 =
      runComplianceChecks 100
        (fun k => if k = 9 then some 5 else if k = 8 then none else some 99) [777600000] 0 := by
  refine classifier_lastday_amended.1 100 0 _ _ [777600000] ?_ ?_ <;>
    norm_num [formatDate, msPerDay]

/-- The readings of the C3 counterexample: day 1 (value 100) and day 2
(value 90) of a three-day range. -/
def c3Readings : List ReadingRec := [⟨0, 100⟩, ⟨86400000, 90⟩]

/-- The corresponding per-feeder reading map for the controller's
classifier, built as `populateFeederData` builds it. -/
def c3ReadingMap : ReadingMap :=
  fun k => (buildReadingRecMap c3Readings k).map (fun r => r.cumulativeEnergyConsumption)

/-- Counterexample to claim C3.  The claim says the compliance
classifier tests the last element of the expanded date range regardless
of which days have readings, and cites the analysis-sheet utility among
its sources.  For a feeder with readings on days 1 and 2 of the 3-day
range Jan 1-3 1970, the analysis-sheet utility selects day key 1 (its
latest reading day) — not day key 2, the last element of the range — and
flags the feeder (decline, low nomination, low daily uptake), whereas
evaluating the last range element, as the claim states, yields no checks
at all (the guard fires: day 3 has no reading). -/
theorem analysis_lastday_counterexample :
    analysisLastDateKey c3Readings = some 1 ∧
    formatDate ((([0, 86400000, 172800000] : List Int).getLast?).getD 0) = 2 ∧
    (analysisFeederResult 100 c3Readings [0, 86400000, 172800000]).failedChecks =
      [labelDecline, labelNomLow, labelDailyLow] ∧
    runComplianceChecks 100 c3ReadingMap [0, 86400000, 172800000] 0 = [] := by
  refine ⟨by decide, by decide, ?_, ?_⟩
  · norm_num [analysisFeederResult, analysisLastDateKey, buildReadingRecMap, c3Readings,
      checksFrom, formatDate, msPerDay, List.insertionSort, List.orderedInsert,
      List.findIdx?]
  · norm_num [runComplianceChecks, c3ReadingMap, buildReadingRecMap, c3Readings,
      formatDate, msPerDay]

/-! ## Failed-checks summary pipeline (report controller) -/

/-- A feeder as seen by `populateFeederData`: display name, region name,
daily uptake and the per-feeder reading map.  Business hub, band and the
delivery plan are static display data irrelevant to the claims and
omitted. -/
structure FeederRow where
  name : String
  region : String
  dailyEnergyUptake : ℚ
  readings : ReadingMap

/-- One entry of the `failedChecksSummary` array (region, hub and date
are static display columns and omitted). -/
structure SummaryEntry where
  feederName : String
  failedChecks : List String
deriving DecidableEq

/-- The fixed separator of the summary sheet join of the failed checks. -/
def commaSep : String := ", "

/-- The conditional `failedChecksSummary.push` of `populateFeederData`:
an entry exactly when `runComplianceChecks` (invoked with the loop's
`prevActual = 0`) returned at least one failed check. -/
def summaryEntryOf (dates : List Int) (f : FeederRow) : Option SummaryEntry :=
  let feederFailedChecks := runComplianceChecks f.dailyEnergyUptake f.readings dates 0
  if feederFailedChecks.isEmpty then none else some ⟨f.name, feederFailedChecks⟩

/-- One step of the JS `Map` insertion-order grouping: append the feeder
to its region's bucket, or open a new bucket at the end. -/
def insertByKey (acc : List (String × List FeederRow)) (k : String) (f : FeederRow) :
    List (String × List FeederRow) :=
  match acc with
  | [] => [(k, [f])]
  | (k2, l) :: rest =>
    if k2 = k then (k2, l ++ [f]) :: rest else (k2, l) :: insertByKey rest k f

/-- The `feedersByRegion` map of `populateFeederData`: group the feeder
list by region name, preserving first-appearance order of regions and
the original order inside each region. -/
def groupFeedersByRegion (fs : List FeederRow) : List (String × List FeederRow) :=
  fs.foldl (fun acc f => insertByKey acc f.region f) []

/-- The summary list accumulated by the two nested loops of
`populateFeederData`: per region, per feeder, the conditional push. -/
def populateFeederDataSummary (groups : List (String × List FeederRow)) (dates : List Int) :
    List SummaryEntry :=
  groups.flatMap (fun g => g.2.filterMap (fun f => summaryEntryOf dates f))

/-- `populateFailedChecksSummary`: one sheet row per entry; we keep the
feeder-name cell and the joined failed-checks cell. -/
def populateFailedChecksSummaryRows (entries : List SummaryEntry) : List (String × String) :=
  entries.map (fun e => (e.feederName, String.intercalate commaSep e.failedChecks))


theorem insertByKey_flat (k : String) (f : FeederRow) :
    ∀ acc : List (String × List FeederRow),
      List.Perm ((insertByKey acc k f).flatMap (fun g => g.2))
        ((acc.flatMap (fun g => g.2)) ++ [f]) := by
  intro acc
  induction acc with
  | nil => simp [insertByKey]
  | cons g rest ih =>
    obtain ⟨k2, l⟩ := g
    by_cases hk : k2 = k
    · simp only [insertByKey, if_pos hk, List.flatMap_cons, List.append_assoc]
      exact List.Perm.append_left l (List.perm_append_singleton f _).symm
    · simp only [insertByKey, if_neg hk, List.flatMap_cons, List.append_assoc]
      exact List.Perm.append_left l (by simpa using ih)

theorem groupFeedersByRegion_flat_perm (fs : List FeederRow) :
    List.Perm ((groupFeedersByRegion fs).flatMap (fun g => g.2)) fs := by
  have main : ∀ (fs : List FeederRow) (acc : List (String × List FeederRow)),
      List.Perm ((fs.foldl (fun acc f => insertByKey acc f.region f) acc).flatMap (fun g => g.2))
        ((acc.flatMap (fun g => g.2)) ++ fs) := by
    intro fs
    induction fs with
    | nil => intro acc; simp
    | cons f rest ih =>
      intro acc
      simp only [List.foldl_cons]
      refine (ih (insertByKey acc f.region f)).trans ?_
      have h1 := (insertByKey_flat f.region f acc).append_right rest
      have h2 : (((acc.flatMap (fun g => g.2)) ++ [f]) ++ rest) =
          ((acc.flatMap (fun g => g.2)) ++ f :: rest) := by simp
      exact h2 ▸ h1
  have h := main fs []
  simpa [groupFeedersByRegion] using h

theorem flatMap_filterMap_eq (h : FeederRow → Option SummaryEntry) :
    ∀ groups : List (String × List FeederRow),
      groups.flatMap (fun g => g.2.filterMap h) =
        (groups.flatMap (fun g => g.2)).filterMap h := by
  intro groups
  induction groups with
  | nil => rfl
  | cons g rest ih => simp [List.filterMap_append, ih]

theorem populateFeederDataSummary_perm (fs : List FeederRow) (dates : List Int) :
    List.Perm (populateFeederDataSummary (groupFeedersByRegion fs) dates)
      (fs.filterMap (summaryEntryOf dates)) := by
  rw [populateFeederDataSummary, flatMap_filterMap_eq]
  exact (groupFeedersByRegion_flat_perm fs).filterMap _

theorem summaryEntryOf_name (dates : List Int) (f : FeederRow) (e : SummaryEntry)
    (h : summaryEntryOf dates f = some e) :
    e.feederName = f.name ∧
      e.failedChecks = runComplianceChecks f.dailyEnergyUptake f.readings dates 0 := by
  simp only [summaryEntryOf] at h
  split at h
  · exact absurd h (by simp)
  · obtain rfl := (Option.some.injEq _ _).mp h.symm
    exact ⟨rfl, rfl⟩

theorem filterMap_entry_filter_none (dates : List Int) (nm : String) :
    ∀ rest : List FeederRow, (∀ g ∈ rest, g.name ≠ nm) →
      ((rest.filterMap (summaryEntryOf dates)).filter (fun e => e.feederName = nm)) = [] := by
  intro rest
  induction rest with
  | nil => intro _; rfl
  | cons g rest2 ih =>
    intro hno
    rw [List.filterMap_cons]
    cases hg : summaryEntryOf dates g with
    | none => exact ih (fun x hx => hno x (by simp [hx]))
    | some e =>
      rw [List.filter_cons_of_neg]
      · exact ih (fun x hx => hno x (by simp [hx]))
      · simp only [decide_eq_true_eq]
        rw [(summaryEntryOf_name dates g e hg).1]
        exact hno g (by simp)

theorem filterMap_entry_filter_eq (dates : List Int) :
    ∀ (fs : List FeederRow) (f : FeederRow),
      (fs.map FeederRow.name).Nodup → f ∈ fs →
      runComplianceChecks f.dailyEnergyUptake f.readings dates 0 ≠ [] →
      ((fs.filterMap (summaryEntryOf dates)).filter (fun e => e.feederName = f.name)) =
        [⟨f.name, runComplianceChecks f.dailyEnergyUptake f.readings dates 0⟩] := by
  intro fs
  induction fs with
  | nil => intro f _ hf; simp at hf
  | cons g rest ih =>
    intro f hnodup hf hchecks
    have hnodup2 : (rest.map FeederRow.name).Nodup := (List.nodup_cons.mp hnodup).2
    have hgnot : g.name ∉ rest.map FeederRow.name := (List.nodup_cons.mp hnodup).1
    rcases List.mem_cons.mp hf with rfl | hf2
    · have hentry : summaryEntryOf dates f =
          some ⟨f.name, runComplianceChecks f.dailyEnergyUptake f.readings dates 0⟩ := by
        simp only [summaryEntryOf]
        rw [if_neg (by simpa using hchecks)]
      have hnone : ∀ g ∈ rest, g.name ≠ f.name := by
        intro x hx hxname
        exact hgnot (hxname ▸ List.mem_map_of_mem FeederRow.name hx)
      rw [List.filterMap_cons, hentry, List.filter_cons_of_pos (by simp),
        filterMap_entry_filter_none dates f.name rest hnone]
    · have hfname : f.name ∈ rest.map FeederRow.name := List.mem_map_of_mem FeederRow.name hf2
      have hgname : g.name ≠ f.name := fun heq => hgnot (heq ▸ hfname)
      rw [List.filterMap_cons]
      cases hg : summaryEntryOf dates g with
      | none => exact ih f hnodup2 hf2 hchecks
      | some e =>
        rw [List.filter_cons_of_neg]
        · exact ih f hnodup2 hf2 hchecks
        · simp only [decide_eq_true_eq]
          rw [(summaryEntryOf_name dates g e hg).1]
          exact hgname

theorem runComplianceChecks_of_guard_fail (u prevA : ℚ) (rm : ReadingMap) (dates : List Int)
    (hguard : ∀ v, rm (formatDate ((dates.getLast?).getD 0)) = some v → v ≤ 0) :
    runComplianceChecks u rm dates prevA = [] := by
  simp only [runComplianceChecks]
  cases h : rm (formatDate ((dates.getLast?).getD 0)) with
  | none => rfl
  | some v => simp [hguard v h]

theorem analysisFeederResult_of_guard_fail (u : ℚ) (rs : List ReadingRec) (dates : List Int)
    (hguard : ∀ v, analysisLastValue rs = some v → v ≤ 0) :
    analysisFeederResult u rs dates = ⟨[], [], none⟩ := by
  cases hk : analysisLastDateKey rs with
  | none => simp [analysisFeederResult, hk]
  | some k =>
    cases hr : buildReadingRecMap rs k with
    | none => simp [analysisFeederResult, hk, hr]
    | some r =>
      have hval : analysisLastValue rs = some r.cumulativeEnergyConsumption := by
        simp [analysisLastValue, hk, hr]
      have hneg : ¬ 0 < r.cumulativeEnergyConsumption := not_lt.mpr (hguard _ hval)
      simp [analysisFeederResult, hk, hr, hneg]

theorem analysisFeederResult_classified (u : ℚ) (rs : List ReadingRec) (dates : List Int)
    (k : Int) (r : ReadingRec) (hk : analysisLastDateKey rs = some k)
    (hr : buildReadingRecMap rs k = some r) (ha : 0 < r.cumulativeEnergyConsumption) :
    ∃ cs pv : List String,
      (pv = [] ∨ pv = [labelPositiveVariance]) ∧
      (∃ di nom p, cs = checksFrom u di nom r.cumulativeEnergyConsumption p) ∧
      analysisFeederResult u rs dates =
        ⟨cs, cs ++ pv ++ (if cs.isEmpty then [labelNoFlags] else []),
         if cs.isEmpty then none else some cs⟩ := by
  refine ⟨checksFrom u
      ((((dates.findIdx? (fun d => formatDate d = k)).map (fun j => j + 1)).getD 0))
      (u * ((((dates.findIdx? (fun d => formatDate d = k)).map (fun j => j + 1)).getD 0 : Nat) : ℚ))
      r.cumulativeEnergyConsumption
      (((buildReadingRecMap rs (formatDate (r.date - msPerDay))).map
        (fun x => x.cumulativeEnergyConsumption)).getD 0),
    (if (0 : ℚ) ≤ r.cumulativeEnergyConsumption -
        u * ((((dates.findIdx? (fun d => formatDate d = k)).map (fun j => j + 1)).getD 0 : Nat) : ℚ)
      then [labelPositiveVariance] else []),
    ?_, ⟨_, _, _, rfl⟩, ?_⟩
  · split_ifs
    · right
      rfl
    · left
      rfl
  · simp only [analysisFeederResult, hk, hr, ha, if_true, ite_true]

theorem analysisLastValue_some_elim (rs : List ReadingRec) (v : ℚ)
    (hv : analysisLastValue rs = some v) :
    ∃ k r, analysisLastDateKey rs = some k ∧ buildReadingRecMap rs k = some r ∧
      r.cumulativeEnergyConsumption = v := by
  cases hk : analysisLastDateKey rs with
  | none => rw [analysisLastValue, hk] at hv; simp at hv
  | some k =>
    cases hr : buildReadingRecMap rs k with
    | none => rw [analysisLastValue, hk] at hv; simp [hr] at hv
    | some r =>
      refine ⟨k, r, rfl, hr, ?_⟩
      rw [analysisLastValue, hk] at hv
      simp [hr] at hv
      exact hv

/-- C5: a feeder whose last classified day has no reading or whose
actual there is ≤ 0 gets no failed checks, contributes no summary entry
(and removing it leaves the other feeders' summary entries untouched),
and — in the analysis-sheet utility — is copied into none of the eight
analysis buckets. -/
theorem insufficientData_excluded :
    (∀ (u prevA : ℚ) (rm : ReadingMap) (dates : List Int),
      (∀ v, rm (formatDate ((dates.getLast?).getD 0)) = some v → v ≤ 0) →
      runComplianceChecks u rm dates prevA = []) ∧
    (∀ (dates : List Int) (f : FeederRow) (xs ys : List FeederRow),
      (∀ v, f.readings (formatDate ((dates.getLast?).getD 0)) = some v → v ≤ 0) →
      summaryEntryOf dates f = none ∧
        (xs ++ f :: ys).filterMap (summaryEntryOf dates) =
          (xs ++ ys).filterMap (summaryEntryOf dates)) ∧
    (∀ (u : ℚ) (rs : List ReadingRec) (dates : List Int),
      (∀ v, analysisLastValue rs = some v → v ≤ 0) →
      analysisFeederResult u rs dates = ⟨[], [], none⟩) := by
  refine ⟨runComplianceChecks_of_guard_fail, ?_, analysisFeederResult_of_guard_fail⟩
  intro dates f xs ys hguard
  have hentry : summaryEntryOf dates f = none := by
    simp only [summaryEntryOf]
    rw [runComplianceChecks_of_guard_fail f.dailyEnergyUptake 0 f.readings dates hguard]
    rfl
  exact ⟨hentry, by simp [List.filterMap_append, List.filterMap_cons, hentry]⟩

/-- Witness for `insufficientData_excluded`: a feeder whose only reading
has value 0 is excluded from all classification by the analysis-sheet
utility. -/
theorem insufficientData_excluded_instance :
    analysisFeederResult 100 [⟨0, 0⟩] [0] = ⟨[], [], none⟩ := by
  refine insufficientData_excluded.2.2 100 [⟨0, 0⟩] [0] ?_
  intro v hv
  have h0 : analysisLastValue [(⟨0, 0⟩ : ReadingRec)] = some 0 := by
    norm_num [analysisLastValue, analysisLastDateKey, buildReadingRecMap,
      List.insertionSort, formatDate, msPerDay]
  rw [h0] at hv
  obtain rfl := (Option.some.injEq _ _).mp hv.symm
  exact le_refl 0

theorem labelNoFlags_not_mem_checksFrom (u : ℚ) (di : Nat) (nom a p : ℚ) :
    labelNoFlags ∉ checksFrom u di nom a p := by
  intro hmem
  rcases checksFrom_subset u di nom a p labelNoFlags hmem with h | h | h | h | h <;>
    revert h <;> decide

theorem analysisGuard_of_not (rs : List ReadingRec)
    (h : ¬ ∃ v, analysisLastValue rs = some v ∧ 0 < v) :
    ∀ v, analysisLastValue rs = some v → v ≤ 0 :=
  fun v hv => not_lt.mp (fun hpos => h ⟨v, hv, hpos⟩)

/-- C6: `No Flags` holds exactly when the data-sufficiency guard passed
and the failed-check list is empty; a summary entry exists exactly when
the guard passed and at least one check failed, and it carries exactly
the failed-check list; and in the controller's summary pipeline every
feeder with at least one failed check appears in the rendered summary
rows exactly once, carrying its failed-check list joined by ", ". -/
theorem noFlags_and_summary_spec :
    (∀ (u : ℚ) (rs : List ReadingRec) (dates : List Int),
      labelNoFlags ∈ (analysisFeederResult u rs dates).buckets ↔
        ((∃ v, analysisLastValue rs = some v ∧ 0 < v) ∧
          (analysisFeederResult u rs dates).failedChecks = [])) ∧
    (∀ (u : ℚ) (rs : List ReadingRec) (dates : List Int),
      ((analysisFeederResult u rs dates).summaryEntry ≠ none ↔
        ((∃ v, analysisLastValue rs = some v ∧ 0 < v) ∧
          (analysisFeederResult u rs dates).failedChecks ≠ [])) ∧
      (∀ l, (analysisFeederResult u rs dates).summaryEntry = some l →
        l = (analysisFeederResult u rs dates).failedChecks)) ∧
    (∀ (dates : List Int) (fs : List FeederRow) (f : FeederRow),
      (fs.map FeederRow.name).Nodup → f ∈ fs →
      runComplianceChecks f.dailyEnergyUptake f.readings dates 0 ≠ [] →
      ((populateFailedChecksSummaryRows
          (populateFeederDataSummary (groupFeedersByRegion fs) dates)).filter
        (fun r => r.1 = f.name)) =
        [(f.name, String.intercalate commaSep
          (runComplianceChecks f.dailyEnergyUptake f.readings dates 0))]) := by
  refine ⟨?_, ?_, ?_⟩
  · intro u rs dates
    by_cases hguard : ∃ v, analysisLastValue rs = some v ∧ 0 < v
    · obtain ⟨v, hv, hvpos⟩ := hguard
      obtain ⟨k, r, hk, hr, hrv⟩ := analysisLastValue_some_elim rs v hv
      obtain ⟨cs, pv, hpv, ⟨di, nom, p, hcs⟩, heq⟩ :=
        analysisFeederResult_classified u rs dates k r hk hr (hrv ▸ hvpos)
      rw [heq]
      have hnoflags_cs : labelNoFlags ∉ cs := hcs ▸ labelNoFlags_not_mem_checksFrom u di nom _ p
      have hnoflags_pv : labelNoFlags ∉ pv := by
        rcases hpv with rfl | rfl
        · simp
        · simp only [List.mem_singleton]
          decide
      by_cases hemp : cs = []
      · subst hemp
        simp only [List.isEmpty_nil, ite_true, if_true]
        simp only [List.nil_append, List.mem_append, List.mem_singleton]
        constructor
        · intro _
          refine ⟨⟨v, hv, hvpos⟩, ?_⟩
          trivial
        · intro _
          right
          trivial
      · have hemp2 : ¬ cs.isEmpty := by simpa using hemp
        simp only [hemp2, Bool.false_eq_true, ite_false, if_neg, List.append_nil]
        simp only [List.mem_append]
        constructor
        · rintro (hmem | hmem)
          · exact absurd hmem hnoflags_cs
          · exact absurd hmem hnoflags_pv
        · rintro ⟨_, hcontra⟩
          exact absurd hcontra hemp
    · rw [analysisFeederResult_of_guard_fail u rs dates (analysisGuard_of_not rs hguard)]
      simp [hguard]
  · intro u rs dates
    by_cases hguard : ∃ v, analysisLastValue rs = some v ∧ 0 < v
    · obtain ⟨v, hv, hvpos⟩ := hguard
      obtain ⟨k, r, hk, hr, hrv⟩ := analysisLastValue_some_elim rs v hv
      obtain ⟨cs, pv, hpv, ⟨di, nom, p, hcs⟩, heq⟩ :=
        analysisFeederResult_classified u rs dates k r hk hr (hrv ▸ hvpos)
      rw [heq]
      by_cases hemp : cs = []
      · subst hemp
        simp only [List.isEmpty_nil, ite_true, if_true]
        constructor
        · simp
        · intro l hl
          simp at hl
      · have hemp2 : ¬ cs.isEmpty := by simpa using hemp
        simp only [hemp2, Bool.false_eq_true, ite_false, if_neg]
        constructor
        · simp only [ne_eq, Option.some_ne_none, not_false_eq_true, true_iff]
          exact ⟨⟨v, hv, hvpos⟩, hemp⟩
        · intro l hl
          obtain rfl := (Option.some.injEq _ _).mp hl.symm
          rfl
    · rw [analysisFeederResult_of_guard_fail u rs dates (analysisGuard_of_not rs hguard)]
      refine ⟨by simp [hguard], by simp⟩
  · intro dates fs f hnodup hf hchecks
    have hperm := populateFeederDataSummary_perm fs dates
    have hfiltered := hperm.filter (fun e => decide (e.feederName = f.name))
    rw [filterMap_entry_filter_eq dates fs f hnodup hf hchecks] at hfiltered
    have heq := List.perm_singleton.mp hfiltered
    rw [populateFailedChecksSummaryRows, List.filter_map]
    have hcomp : ((fun (r : String × String) => decide (r.1 = f.name)) ∘
        (fun e : SummaryEntry => (e.feederName, String.intercalate commaSep e.failedChecks))) =
        (fun e : SummaryEntry => decide (e.feederName = f.name)) := by
      funext e
      rfl
    rw [hcomp, heq]
    rfl

/-- The feeder of the C6 witness: uptake 100, one reading of 10 on its
single report day (so `< 70% Nom` fails). -/
def c6Feeder : FeederRow :=
  ⟨"F1", "R1", 100, fun k => if k = 0 then some 10 else none⟩

/-- Witness for `noFlags_and_summary_spec`: the one-feeder summary sheet
carries exactly one row for the feeder, with its single failed check. -/
theorem noFlags_and_summary_spec_instance :
    ((populateFailedChecksSummaryRows
        (populateFeederDataSummary (groupFeedersByRegion [c6Feeder]) [0])).filter
      (fun r => r.1 = c6Feeder.name)) = [("F1", "< 70% Nom")] := by
  have hchecks : runComplianceChecks c6Feeder.dailyEnergyUptake c6Feeder.readings [0] 0 =
      [labelNomLow] := by
    norm_num [runComplianceChecks, c6Feeder, checksFrom, formatDate, msPerDay]
  have h := noFlags_and_summary_spec.2.2 [0] [c6Feeder] c6Feeder
    (by simp) (by simp) (by rw [hchecks]; simp)
  rw [h, hchecks]
  rfl

/-! ## Readings cache (`FeederDataService.getAllReadingsInRange`) -/

/-- The cache key: the requested `(startDate, endDate)` pair.  The
source key is the concatenation of the two ISO date strings with a
dash between them; ISO strings have a fixed length, so that string
determines the pair and the pair is a faithful model of the key. -/
structure CacheKey where
  startDate : Int
  endDate : Int
deriving DecidableEq

/-- The static mutable state of `FeederDataService`: the `readingsCache`
map (modelled as an association list) and `cacheTimestamp`. -/
structure CacheState where
  readingsCache : List (CacheKey × List ReadingRec)
  cacheTimestamp : Int

/-- `CACHE_TTL = 5 * 60 * 1000` (five minutes). -/
def CACHE_TTL : Int := 5 * 60 * 1000

/-- `FeederDataService.getAllReadingsInRange`, with the database range
query abstracted as `db` and `Date.now()` as `now`: on an exact-key hit
within the TTL, return the cached readings and leave the state
unchanged; otherwise query the store, clear the cache, store the single
new entry and refresh the timestamp. -/
def getAllReadingsInRange (db : CacheKey → List ReadingRec) (now : Int) (key : CacheKey)
    (s : CacheState) : List ReadingRec × CacheState :=
  if (s.readingsCache.any (fun e => e.1 == key)) ∧ now - s.cacheTimestamp < CACHE_TTL then
    (((s.readingsCache.find? (fun e => e.1 == key)).map (fun e => e.2)).getD [], s)
  else
    let readings := db key
    (readings, ⟨[(key, readings)], now⟩)

/-- Cache states reachable from the initial state (empty cache,
timestamp 0) by any sequence of calls. -/
inductive ReachableCache : CacheState → Prop where
  | init : ReachableCache ⟨[], 0⟩
  | step (db : CacheKey → List ReadingRec) (now : Int) (key : CacheKey) (s : CacheState) :
      ReachableCache s → ReachableCache (getAllReadingsInRange db now key s).2

theorem reachable_cache_small (s : CacheState) (h : ReachableCache s) :
    s.readingsCache = [] ∨ ∃ k v, s.readingsCache = [(k, v)] := by
  induction h with
  | init => exact Or.inl rfl
  | step db now key s hs ih =>
    simp only [getAllReadingsInRange]
    split
    · exact ih
    · exact Or.inr ⟨key, db key, rfl⟩

/-- C9: the readings cache holds at most one entry: after every call on
a reachable state the cache contains exactly one entry, keyed by the
requested `(startDate, endDate)` pair (any prior entry for a different
key having been cleared); and a cached result is served only on an exact
key match whose age is below the TTL — with a differing key or an
expired timestamp the database is queried and the cache replaced. -/
theorem cache_single_entry :
    ∀ s : CacheState, ReachableCache s →
      (∀ (db : CacheKey → List ReadingRec) (now : Int) (key : CacheKey),
        ∃ v, ((getAllReadingsInRange db now key s).2).readingsCache = [(key, v)]) ∧
      (∀ (db : CacheKey → List ReadingRec) (now : Int) (key key2 : CacheKey)
          (v : List ReadingRec),
        s.readingsCache = [(key2, v)] →
        (key ≠ key2 ∨ CACHE_TTL ≤ now - s.cacheTimestamp) →
        getAllReadingsInRange db now key s = (db key, ⟨[(key, db key)], now⟩)) := by
  intro s hs
  constructor
  · intro db now key
    rcases reachable_cache_small s hs with hempty | ⟨k2, v2, hone⟩
    · refine ⟨db key, ?_⟩
      rw [getAllReadingsInRange, if_neg ?_]
      · rintro ⟨hany, _⟩
        rw [hempty] at hany
        simp at hany
    · by_cases hcond : (s.readingsCache.any (fun e => e.1 == key)) ∧
          now - s.cacheTimestamp < CACHE_TTL
      · have hk : k2 = key := by
          have hany := hcond.1
          rw [hone] at hany
          simpa using hany
        refine ⟨v2, ?_⟩
        rw [getAllReadingsInRange, if_pos hcond]
        rw [hone, hk]
      · refine ⟨db key, ?_⟩
        rw [getAllReadingsInRange, if_neg hcond]
  · intro db now key key2 v hone hcond2
    rw [getAllReadingsInRange, if_neg ?_]
    rintro ⟨hany, hlt⟩
    rw [hone] at hany
    simp only [List.any_cons, List.any_nil, Bool.or_false, beq_iff_eq] at hany
    rcases hcond2 with hne | httl
    · exact hne hany.symm
    · omega

/-- Witness for `cache_single_entry`: the very first call on the
initial state leaves exactly one entry under the requested key. -/
theorem cache_single_entry_instance :
    ∃ v, ((getAllReadingsInRange (fun _ => []) 0 ⟨0, 86399999⟩ ⟨[], 0⟩).2).readingsCache =
      [(⟨0, 86399999⟩, v)] :=
  (cache_single_entry ⟨[], 0⟩ ReachableCache.init).1 (fun _ => []) 0 ⟨0, 86399999⟩

/-! ## Region/hub filter resolution (report endpoints) -/

/-- The case-insensitive `findOne` name lookups on the Region and
BusinessHub collections, abstracted as functions from the query name to
the optional resolved document id. -/
structure Lookups where
  regionByName : String → Option Nat
  hubByName : String → Option Nat

/-- The `feederFilter` object accumulated by the endpoints. -/
structure FeederFilter where
  region : Option Nat
  businessHub : Option Nat
deriving DecidableEq

/-- The error responses of the endpoints' early phase. -/
inductive ReportError where
  | regionNotFound (name : String)
  | hubNotFound (name : String)
  | noFeedersFound
deriving DecidableEq

/-- The collaborators of one report invocation: the name lookups, the
feeder query (by filter) and the readings range query. -/
structure ReportDeps where
  lookups : Lookups
  feedersFor : FeederFilter → List String
  readingsFor : Int → Int → List ReadingRec

/-- The region branch of `generateSpecificDateReport`: a present but
unresolved region name is a 404 error. -/
def resolveRegionStrict (lk : Lookups) : Option String → Except ReportError (Option Nat)
  | none => Except.ok none
  | some r =>
    match lk.regionByName r with
    | none => Except.error (ReportError.regionNotFound r)
    | some rid => Except.ok (some rid)

/-- The business-hub branch of `generateSpecificDateReport`. -/
def resolveHubStrict (lk : Lookups) : Option String → Except ReportError (Option Nat)
  | none => Except.ok none
  | some h =>
    match lk.hubByName h with
    | none => Except.error (ReportError.hubNotFound h)
    | some hid => Except.ok (some hid)

/-- The data phase of `generateSpecificDateReport`: resolve the region
filter (404 on failure), then the hub filter (404 on failure), then
fetch the filtered feeders (404 when empty), and only then fetch the
readings of the range. -/
def generateSpecificDateReport (d : ReportDeps) (region businessHub : Option String)
    (startDate endDate : Int) : Except ReportError (List String × List ReadingRec) :=
  match resolveRegionStrict d.lookups region with
  | Except.error e => Except.error e
  | Except.ok rid =>
    match resolveHubStrict d.lookups businessHub with
    | Except.error e => Except.error e
    | Except.ok hid =>
      let feeders := d.feedersFor ⟨rid, hid⟩
      if feeders.isEmpty then Except.error ReportError.noFeedersFound
      else Except.ok (feeders, d.readingsFor startDate endDate)

/-- The data phase of `sendReportByEmail`: the filter keeps a resolved
region/hub id and silently stays empty when the lookup fails
(`if (regionDoc) feederFilter.region = regionDoc._id`), then feeders are
fetched (404 when empty) and the readings are fetched. -/
def sendReportByEmail (d : ReportDeps) (region businessHub : Option String)
    (startDate endDate : Int) : Except ReportError (List String × List ReadingRec) :=
  let feederFilter : FeederFilter :=
    ⟨region.bind d.lookups.regionByName, businessHub.bind d.lookups.hubByName⟩
  let feeders := d.feedersFor feederFilter
  if feeders.isEmpty then Except.error ReportError.noFeedersFound
  else Except.ok (feeders, d.readingsFor startDate endDate)

/-- The data phase of `generateCustomReport`: identical lenient filter
construction as `sendReportByEmail`. -/
def generateCustomReport (d : ReportDeps) (region businessHub : Option String)
    (startDate endDate : Int) : Except ReportError (List String × List ReadingRec) :=
  let feederFilter : FeederFilter :=
    ⟨region.bind d.lookups.regionByName, businessHub.bind d.lookups.hubByName⟩
  let feeders := d.feedersFor feederFilter
  if feeders.isEmpty then Except.error ReportError.noFeedersFound
  else Except.ok (feeders, d.readingsFor startDate endDate)

/-- Dependencies of the C8 counterexample: no region or hub name
resolves, one feeder exists, no readings. -/
def c8Deps : ReportDeps :=
  ⟨⟨fun _ => none, fun _ => none⟩, fun _ => ["F1"], fun _ _ => []⟩

/-- Counterexample to claim C8.  The claim says every invocation
carrying a region filter that does not resolve reports a not-found
condition and aborts, and that the filter is never silently dropped.
With a region filter "Ibadan" that does not resolve, `sendReportByEmail`
and `generateCustomReport` succeed: they return the unfiltered feeder
list — exactly the same outcome as invoking them with no filter at all —
instead of any error. -/
theorem silentFilterDrop_counterexample :
    sendReportByEmail c8Deps (some "Ibadan") none 0 86399999 = Except.ok (["F1"], []) ∧
    sendReportByEmail c8Deps (some "Ibadan") none 0 86399999 =
      sendReportByEmail c8Deps none none 0 86399999 ∧
    generateCustomReport c8Deps (some "Ibadan") none 0 86399999 = Except.ok (["F1"], []) := by
  refine ⟨rfl, rfl, rfl⟩

/-- C8, amended.  `generateSpecificDateReport` behaves as the claim
says: an unresolved region (or hub) name yields a not-found error, and
this outcome is independent of the readings collaborator (no readings
are fetched).  `sendReportByEmail` and `generateCustomReport`, however,
silently drop an unresolved region filter: their outcome is identical to
the invocation without that filter. -/
theorem lookupNotFound_amended :
    (∀ (d : ReportDeps) (r : String) (hub : Option String) (s e : Int),
      d.lookups.regionByName r = none →
      generateSpecificDateReport d (some r) hub s e =
        Except.error (ReportError.regionNotFound r)) ∧
    (∀ (d : ReportDeps) (h : String) (s e : Int),
      d.lookups.hubByName h = none →
      generateSpecificDateReport d none (some h) s e =
        Except.error (ReportError.hubNotFound h)) ∧
    (∀ (lk : Lookups) (ff : FeederFilter → List String)
        (rf rf2 : Int → Int → List ReadingRec) (r : String) (hub : Option String) (s e : Int),
      lk.regionByName r = none →
      generateSpecificDateReport ⟨lk, ff, rf⟩ (some r) hub s e =
        generateSpecificDateReport ⟨lk, ff, rf2⟩ (some r) hub s e) ∧
    (∀ (d : ReportDeps) (r : String) (hub : Option String) (s e : Int),
      d.lookups.regionByName r = none →
      sendReportByEmail d (some r) hub s e = sendReportByEmail d none hub s e) ∧
    (∀ (d : ReportDeps) (r : String) (hub : Option String) (s e : Int),
      d.lookups.regionByName r = none →
      generateCustomReport d (some r) hub s e = generateCustomReport d none hub s e) := by
  refine ⟨?_, ?_, ?_, ?_, ?_⟩
  · intro d r hub s e hlk
    simp [generateSpecificDateReport, resolveRegionStrict, hlk]
  · intro d h s e hlk
    simp [generateSpecificDateReport, resolveRegionStrict, resolveHubStrict, hlk]
  · intro lk ff rf rf2 r hub s e hlk
    simp [generateSpecificDateReport, resolveRegionStrict, hlk]
  · intro d r hub s e hlk
    simp [sendReportByEmail, hlk]
  · intro d r hub s e hlk
    simp [generateCustomReport, hlk]

/-- Witness for `lookupNotFound_amended`: the strict endpoint rejects
the unresolved region name with a not-found error. -/
theorem lookupNotFound_amended_instance :
    generateSpecificDateReport c8Deps (some "Oyo") none 0 86399999 =
      Except.error (ReportError.regionNotFound "Oyo") :=
  lookupNotFound_amended.1 c8Deps "Oyo" none 0 86399999 rfl

end IbedcEnergy
